import Mathlib

/-!
Verification of the skill-gap analysis core of the skillmap engine.

The definitions below are a shallow embedding of the functions in
src/services/skillGapService.js (and their duplicates in the standalone
gap-finder script).  JS strings are Lean `String`s, JS numbers are `ℚ`,
JS objects used as insertion-ordered maps are association lists, and the
two network calls (embedding provider and vector index) are supplied as
`Except`-valued oracles.
-/

namespace SkillMap

/-- Character class of the regex word class: ASCII letters, digits, underscore. -/
def isWordChar (c : Char) : Bool :=
  c.isAlphanum || c = '_'

/-- ASCII whitespace characters matched by the regex whitespace class. -/
def isSpaceChar (c : Char) : Bool :=
  c = ' ' || c = '\t' || c = '\n' || c = '\r' || c.toNat = 11 || c.toNat = 12

/-- Normalization used by calculateStringSimilarity: lowercase, then drop every
character that is neither a word character nor whitespace. -/
def normalizeChars (s : List Char) : List Char :=
  (s.map Char.toLower).filter (fun c => isWordChar c || isSpaceChar c)

/-- Splitting on runs of whitespace, with the JS semantics of split: a leading
run produces an empty first token, a trailing run an empty last token, and the
empty string yields the single empty token. -/
def splitWsAux (acc : List Char) : List Char → List (List Char)
  | [] => [acc.reverse]
  | c :: cs =>
    if isSpaceChar c then acc.reverse :: splitWsAux [] (cs.dropWhile isSpaceChar)
    else splitWsAux (c :: acc) cs
termination_by l => l.length
decreasing_by
  · simp only [List.length_cons]
    exact Nat.lt_succ_of_le (List.dropWhile_sublist _).length_le
  · simp

/-- Token list of a normalized string, as produced by splitting on whitespace. -/
def splitWs (s : List Char) : List (List Char) :=
  splitWsAux [] s

/-- Building a JS Set from a list: keep the first occurrence of each element,
in insertion order. -/
def insertUnique (l : List (List Char)) (x : List Char) : List (List Char) :=
  if x ∈ l then l else l ++ [x]

/-- Deduplicate a word list the way the JS Set constructor does. -/
def toSetList (l : List (List Char)) : List (List Char) :=
  l.foldl insertUnique []

/-- The Jaccard branch of calculateStringSimilarity: intersection size over
union size of the two word sets. -/
def jaccardWords (s1 s2 : List Char) : ℚ :=
  let words1 := toSetList (splitWs s1)
  let words2 := toSetList (splitWs s2)
  ((words1.filter (fun x => words2.contains x)).length : ℚ) /
    ((toSetList (words1 ++ words2)).length : ℚ)

/-- calculateStringSimilarity from skillGapService.js: normalize both strings;
equal strings score 1.0; containment either way scores 0.9; otherwise the
word-set Jaccard index. -/
def calculateStringSimilarity (str1 str2 : String) : ℚ :=
  if normalizeChars str1.toList = normalizeChars str2.toList then 1
  else if normalizeChars str2.toList <:+: normalizeChars str1.toList ∨
      normalizeChars str1.toList <:+: normalizeChars str2.toList then mkRat 9 10
  else jaccardWords (normalizeChars str1.toList) (normalizeChars str2.toList)

/-- Lowercased copy of a string (JS toLowerCase, ASCII letters). -/
def lowerStr (s : String) : String :=
  String.mk (s.toList.map Char.toLower)

/-- Punctuation stripping applied to a taxonomy skill name at the top of
findUserSkill: drop every character that is neither a word character nor
whitespace, without changing case. -/
def stripPunct (s : String) : String :=
  String.mk (s.toList.filter (fun c => isWordChar c || isSpaceChar c))

/-- The hand-curated variations table of areSkillsSimilar. -/
def variations : List (String × List String) :=
  [("javascript", ["js", "node.js", "nodejs"]),
   ("python", ["py"]),
   ("html/css", ["html", "css"]),
   ("react", ["react.js", "reactjs"]),
   ("backend (node/express)", ["node.js", "express.js", "express", "backend"]),
   ("sql", ["postgresql", "mysql", "sqlite"]),
   ("git & github", ["git", "github"]),
   ("docker", ["containerization"]),
   ("linux/bash", ["linux", "bash", "shell"])]

/-- areSkillsSimilar from skillGapService.js: the two (already lowercased)
names hit the table when one is a key and the other one of its variants, or
both are variants of the same key. -/
def areSkillsSimilar (skill1 skill2 : String) : Bool :=
  variations.any (fun kv =>
    (kv.1 == skill1 && kv.2.contains skill2) ||
    (kv.1 == skill2 && kv.2.contains skill1) ||
    (kv.2.contains skill1 && kv.2.contains skill2))

/-- The per-entry score computed inside the fuzzy loop of findUserSkill: a
substring relation scores 0.8 when the shorter string has length at least 2
and the length ratio is at least 0.3; a synonym-table hit then overrides the
score to 0.9. -/
def substringScore (skillNameLower userSkillLower : String) : ℚ :=
  if skillNameLower.toList <:+: userSkillLower.toList ∨
      userSkillLower.toList <:+: skillNameLower.toList then
    if 2 ≤ min skillNameLower.toList.length userSkillLower.toList.length ∧
        (3 : ℚ)/10 ≤ (min skillNameLower.toList.length userSkillLower.toList.length : ℚ) /
          (max skillNameLower.toList.length userSkillLower.toList.length : ℚ) then mkRat 8 10
    else 0
  else 0

/-- The score the loop ends up with: the substring score, overridden to 0.9 by
a synonym-table hit. -/
def fuzzyScore (skillNameLower userSkillLower : String) : ℚ :=
  if areSkillsSimilar skillNameLower userSkillLower then mkRat 9 10
  else substringScore skillNameLower userSkillLower

/-- Association-list lookup, first binding wins; stands for JS property access
on an insertion-ordered object. -/
def lookupA {α : Type} (k : String) : List (String × α) → Option α
  | [] => none
  | (k2, v) :: rest => if k2 = k then some v else lookupA k rest

/-- JS truthiness of the direct lookup in findUserSkill: a present but
empty-string level is falsy, so the direct match fails on it. -/
def truthyLookup (k : String) (m : List (String × String)) : Option String :=
  match lookupA k m with
  | some v => if v = "" then none else some v
  | none => none

/-- The fuzzy loop of findUserSkill: iterate the user skills in insertion
order and return the first entry whose score reaches the 0.7 threshold. -/
def findUserSkillLoop (skillNameLower : String) :
    List (String × String) → Option (String × String)
  | [] => none
  | (userSkill, level) :: rest =>
    if mkRat 7 10 ≤ fuzzyScore skillNameLower (lowerStr userSkill) then some (userSkill, level)
    else findUserSkillLoop skillNameLower rest

/-- findUserSkill from skillGapService.js: strip punctuation from the skill
name, try a direct (truthy) key lookup, then fall back to the fuzzy loop. -/
def findUserSkill (skillName0 : String) (userSkills : List (String × String)) :
    Option (String × String) :=
  let skillName := stripPunct skillName0
  match truthyLookup skillName userSkills with
  | some level => some (skillName, level)
  | none => findUserSkillLoop (lowerStr skillName) userSkills

/-- A taxonomy skill: name and description. -/
structure Skill where
  name : String
  description : String
deriving DecidableEq

/-- A taxonomy category: canonical name and its ordered skill list. -/
structure TaxonomyCategory where
  category : String
  skills : List Skill
deriving DecidableEq

/-- A detected category with its retrieval confidence. -/
structure CategoryMatch where
  category : String
  confidence : ℚ
deriving DecidableEq

/-- An entry of the gaps list of a category analysis. -/
structure GapSkill where
  name : String
  description : String
  priority : String
deriving DecidableEq

/-- An entry of the present or needs_improvement lists of a category
analysis. -/
structure LeveledSkill where
  name : String
  user_level : String
  description : String
  recommendation : String
deriving DecidableEq

/-- The three skill buckets of one category analysis. -/
structure SkillBuckets where
  gaps : List GapSkill
  present : List LeveledSkill
  needs_improvement : List LeveledSkill
deriving DecidableEq

/-- One output entry of the gap analysis for a successfully aligned
category. -/
structure CategoryAnalysis where
  detected_category : String
  matched_taxonomy_category : String
  confidence : ℚ
  similarity : ℚ
  skills : SkillBuckets
deriving DecidableEq

/-- One step of the best-match scan of findMatchingTaxonomyCategory: a
strictly better similarity replaces the running best. -/
def alignStep (categoryName : String) (acc : Option TaxonomyCategory × ℚ)
    (tc : TaxonomyCategory) : Option TaxonomyCategory × ℚ :=
  if acc.2 < calculateStringSimilarity categoryName tc.category then
    (some tc, calculateStringSimilarity categoryName tc.category)
  else acc

/-- findMatchingTaxonomyCategory from skillGapService.js: scan the taxonomy in
order keeping the strictly best similarity; starts from a null match with
score 0. -/
def findMatchingTaxonomyCategory (taxonomy : List TaxonomyCategory)
    (categoryName : String) : Option TaxonomyCategory × ℚ :=
  taxonomy.foldl (alignStep categoryName) (none, 0)

/-- The per-skill classification step of the inner loop of
analyzeSkillGapsForCategories. -/
def classifySkill (userSkills : List (String × String)) (b : SkillBuckets)
    (skill : Skill) : SkillBuckets :=
  match findUserSkill skill.name userSkills with
  | none =>
    { b with gaps := b.gaps ++
        [{ name := skill.name, description := skill.description, priority := "high" }] }
  | some (_, level) =>
    if level = "beginner" then
      { b with needs_improvement := b.needs_improvement ++
          [{ name := skill.name, user_level := level, description := skill.description,
             recommendation := "Focus on intermediate concepts and practice" }] }
    else if level = "intermediate" then
      { b with present := b.present ++
          [{ name := skill.name, user_level := level, description := skill.description,
             recommendation := "Consider advancing to expert level" }] }
    else
      { b with present := b.present ++
          [{ name := skill.name, user_level := level, description := skill.description,
             recommendation := "Strong skill - can mentor others" }] }

/-- The body of the category loop of analyzeSkillGapsForCategories: skip when
the best alignment similarity is below 0.7, otherwise emit one analysis entry.
The none branch under a score of at least 0.7 is unreachable (a positive best
score is only ever recorded together with a category). -/
def analyzeCategory (taxonomy : List TaxonomyCategory)
    (userSkills : List (String × String)) (categoryInfo : CategoryMatch) :
    List CategoryAnalysis :=
  if (findMatchingTaxonomyCategory taxonomy categoryInfo.category).2 < mkRat 7 10 then []
  else
    match (findMatchingTaxonomyCategory taxonomy categoryInfo.category).1 with
    | none => []
    | some tc =>
      [{ detected_category := categoryInfo.category,
         matched_taxonomy_category := tc.category,
         confidence := categoryInfo.confidence,
         similarity := (findMatchingTaxonomyCategory taxonomy categoryInfo.category).2,
         skills := tc.skills.foldl (classifySkill userSkills) ⟨[], [], []⟩ }]

/-- analyzeSkillGapsForCategories from skillGapService.js: accumulate one
analysis entry per aligned category, in category-match order. -/
def analyzeSkillGapsForCategories (taxonomy : List TaxonomyCategory)
    (categories : List CategoryMatch) (userSkills : List (String × String)) :
    List CategoryAnalysis :=
  categories.foldl
    (fun analysis categoryInfo => analysis ++ analyzeCategory taxonomy userSkills categoryInfo)
    []

/-- One neighbor returned by the vector index: its payload category and its
similarity score. -/
structure SearchResult where
  category : String
  score : ℚ
deriving DecidableEq

/-- Overwrite the value stored under a key of an insertion-ordered object,
keeping the entry position (JS assignment to an existing property). -/
def setAssoc (m : List (String × ℚ)) (k : String) (v : ℚ) : List (String × ℚ) :=
  m.map (fun p => if p.1 = k then (k, v) else p)

/-- One step of the grouping loop of findTaxonomyCategories: insert an unseen
category with its score, or overwrite when the stored score is falsy (0) or
strictly smaller. -/
def groupStep (m : List (String × ℚ)) (r : SearchResult) : List (String × ℚ) :=
  match lookupA r.category m with
  | none => m ++ [(r.category, r.score)]
  | some s => if s = 0 ∨ s < r.score then setAssoc m r.category r.score else m

/-- The grouping loop of findTaxonomyCategories over the whole result list. -/
def groupCategoryScores (results : List SearchResult) : List (String × ℚ) :=
  results.foldl groupStep []

/-- The pure tail of findTaxonomyCategories: nonempty results are grouped into
one entry per distinct category, empty results give the empty list. -/
def findTaxonomyCategoriesPure (results : List SearchResult) : List CategoryMatch :=
  if 0 < results.length then
    (groupCategoryScores results).map (fun p => { category := p.1, confidence := p.2 })
  else []

/-- findTaxonomyCategories with its two network calls supplied as oracles: the
embedding response and the vector-index search.  The catch block logs and
rethrows the same error. -/
def findTaxonomyCategoriesE (embedResult : Except String (List ℚ))
    (searchResult : List ℚ → Except String (List SearchResult)) :
    Except String (List CategoryMatch) :=
  match embedResult with
  | .error e => .error e
  | .ok v =>
    match searchResult v with
    | .error e => .error e
    | .ok results => .ok (findTaxonomyCategoriesPure results)

/-- The payload of a stored user profile: both fields are optional and default
to the empty map and the empty goal. -/
structure UserProfile where
  skills_list_with_level : Option (List (String × String))
  learning_goal : Option String
deriving DecidableEq

/-- The response shape of the top-level analyzeSkillGaps. -/
structure AnalyzeResponse where
  success : Bool
  user : String
  analysis : List CategoryAnalysis
  summary : String
  categories_analyzed : ℕ
  user_goal : String
deriving DecidableEq

/-- generateSkillGapSummary catches every provider failure internally and
substitutes a fixed fallback string; it never propagates an error. -/
def generateSkillGapSummaryE (summaryResult : Except String String) : String :=
  match summaryResult with
  | .ok s => s
  | .error _ =>
    "Unable to generate summary at this time. Please review the detailed analysis above."

/-- The top-level analyzeSkillGaps with its effects supplied as oracles: the
profile fetch, the embedding call, the vector search and the summary call.  A
missing profile returns null; any error from the body is caught and rethrown
as a new error whose message carries the fixed prefix. -/
def analyzeSkillGapsE (taxonomy : List TaxonomyCategory) (name : String)
    (profileResult : Except String (Option UserProfile))
    (embedResult : Except String (List ℚ))
    (searchResult : List ℚ → Except String (List SearchResult))
    (summaryResult : Except String String) :
    Except String (Option AnalyzeResponse) :=
  let body : Except String (Option AnalyzeResponse) :=
    match profileResult with
    | .error e => .error e
    | .ok none => .ok none
    | .ok (some profile) =>
      match findTaxonomyCategoriesE embedResult searchResult with
      | .error e => .error e
      | .ok categories =>
        .ok (some
          { success := true,
            user := name,
            analysis := analyzeSkillGapsForCategories taxonomy categories
              (profile.skills_list_with_level.getD []),
            summary := generateSkillGapSummaryE summaryResult,
            categories_analyzed := categories.length,
            user_goal := profile.learning_goal.getD "" })
  match body with
  | .error e => .error ("Failed to analyze skill gaps: " ++ e)
  | .ok v => .ok v

/-- The qualifying substring relation of the fuzzy resolver, as the claim
words it: either lowercase form is a substring of the other, the shorter has
length at least 2, and the length ratio is at least 0.3. -/
def qualifiesSubstring (a b : String) : Prop :=
  (a.toList <:+: b.toList ∨ b.toList <:+: a.toList) ∧
  2 ≤ min a.toList.length b.toList.length ∧
  (3 : ℚ)/10 ≤ (min a.toList.length b.toList.length : ℚ) /
    (max a.toList.length b.toList.length : ℚ)

instance (a b : String) : Decidable (qualifiesSubstring a b) :=
  inferInstanceAs (Decidable
    ((a.toList <:+: b.toList ∨ b.toList <:+: a.toList) ∧
      2 ≤ min a.toList.length b.toList.length ∧
      (3 : ℚ)/10 ≤ (min a.toList.length b.toList.length : ℚ) /
        (max a.toList.length b.toList.length : ℚ)))

/-- Heuristic score as claim C6 words it: a synonym-table hit scores 0.9,
overriding the substring score; a qualifying substring relation scores 0.8;
anything else scores 0. -/
def claimHeuristicScore (a b : String) : ℚ :=
  if areSkillsSimilar a b then mkRat 9 10
  else if qualifiesSubstring a b then mkRat 8 10
  else 0

/-- The invariant of the grouping loop of findTaxonomyCategories: keys are
distinct, a key is stored exactly when its category occurs among the processed
results, and each stored score is attained by and maximal among the processed
results of its category. -/
def GroupInv (m : List (String × ℚ)) (processed : List SearchResult) : Prop :=
  (m.map Prod.fst).Nodup ∧
  (∀ k, (∃ p ∈ m, p.1 = k) ↔ ∃ r ∈ processed, r.category = k) ∧
  (∀ p ∈ m, (∃ r ∈ processed, r.category = p.1 ∧ r.score = p.2) ∧
    ∀ r ∈ processed, r.category = p.1 → r.score ≤ p.2)

theorem normalizeChars_append (a b : List Char) :
    normalizeChars (a ++ b) = normalizeChars a ++ normalizeChars b := by
  simp [normalizeChars]

theorem mkRat_nine_tenths : mkRat 9 10 = 9/10 := by
  rw [Rat.mkRat_eq_divInt]
  norm_num [Rat.divInt_eq_div]

theorem mkRat_seven_tenths : mkRat 7 10 = 7/10 := by
  rw [Rat.mkRat_eq_divInt]
  norm_num [Rat.divInt_eq_div]

/-- Claim C8: similarity of a string with itself is 1.0, and more generally the
scorer returns 1.0 whenever the two inputs normalize to the same string, as in
the concrete pair "Web Development" and "web development!!". -/
theorem similarity_one_of_norm_eq :
    (∀ s : String, calculateStringSimilarity s s = 1) ∧
    (∀ a b : String, normalizeChars a.toList = normalizeChars b.toList →
      calculateStringSimilarity a b = 1) ∧
    calculateStringSimilarity "Web Development" "web development!!" = 1 := by
  refine ⟨fun s => ?_, fun a b h => ?_, ?_⟩
  · simp [calculateStringSimilarity]
  · simp only [String.toList] at h
    simp [calculateStringSimilarity, h]
  · decide

/-- Witness for C8: the general hypothesis discharged at a concrete pair. -/
theorem similarity_one_of_norm_eq_witness :
    calculateStringSimilarity "React" "react" = 1 :=
  similarity_one_of_norm_eq.2.1 "React" "react" (by decide)

/-- Claim C9: for every non-empty string s, similarity of s with s followed by
the suffix " extra" is 0.9, because the normalized first argument is a proper
substring of the normalized second, so the containment rule fires. -/
theorem similarity_append_extra (s : String) (_h : s ≠ "") :
    calculateStringSimilarity s (s ++ " extra") = 9/10 := by
  have hdata : (s ++ " extra").toList = s.toList ++ (" extra").toList :=
    String.data_append s " extra"
  have hE : normalizeChars (" extra").toList = (" extra").toList := by decide
  have hlen : ((" extra").toList).length = 6 := by decide
  unfold calculateStringSimilarity
  rw [hdata, normalizeChars_append, hE]
  have hne : normalizeChars s.toList ≠ normalizeChars s.toList ++ (" extra").toList := by
    intro hcontra
    have := congrArg List.length hcontra
    simp [hlen] at this
  rw [if_neg hne, if_pos (Or.inr ⟨[], (" extra").toList, by simp⟩)]
  exact mkRat_nine_tenths

/-- Witness for C9 at the concrete string "abc". -/
theorem similarity_append_extra_witness :
    calculateStringSimilarity "abc" ("abc" ++ " extra") = 9/10 :=
  similarity_append_extra "abc" (by decide)

/-- Claim C10: when the first string normalizes to the empty string and the
second does not, the containment rule fires (the empty string is a substring of
every string) and the scorer returns 0.9, never the Jaccard value and never 0. -/
theorem similarity_of_empty_normalization (a b : String)
    (ha : normalizeChars a.toList = []) (hb : normalizeChars b.toList ≠ []) :
    calculateStringSimilarity a b = 9/10 := by
  unfold calculateStringSimilarity
  rw [ha]
  rw [if_neg (fun hcontra => hb hcontra.symm),
    if_pos (Or.inr ⟨[], normalizeChars b.toList, by simp⟩)]
  exact mkRat_nine_tenths

/-- Witness for C10: a punctuation-only first argument against a plain word. -/
theorem similarity_of_empty_normalization_witness :
    calculateStringSimilarity "!!!" "abc" = 9/10 :=
  similarity_of_empty_normalization "!!!" "abc" (by decide) (by decide)

theorem foldl_append_init {α β : Type} (g : β → List α) (l : List β) :
    ∀ init : List α,
      l.foldl (fun acc c => acc ++ g c) init =
        init ++ l.foldl (fun acc c => acc ++ g c) [] := by
  induction l with
  | nil => intro init; simp
  | cons c cs ih =>
    intro init
    simp only [List.foldl_cons]
    rw [ih (init ++ g c), ih (([] : List α) ++ g c)]
    simp

theorem analyze_cons (tax : List TaxonomyCategory) (us : List (String × String))
    (c : CategoryMatch) (cs : List CategoryMatch) :
    analyzeSkillGapsForCategories tax (c :: cs) us =
      analyzeCategory tax us c ++ analyzeSkillGapsForCategories tax cs us := by
  unfold analyzeSkillGapsForCategories
  simp only [List.foldl_cons, List.nil_append]
  exact foldl_append_init _ cs (analyzeCategory tax us c)

theorem align_foldl_none (name : String) (l : List TaxonomyCategory) :
    ∀ acc : Option TaxonomyCategory × ℚ,
      (l.foldl (alignStep name) acc).1 = none → l.foldl (alignStep name) acc = acc := by
  induction l with
  | nil => intro acc _; rfl
  | cons tc l ih =>
    intro acc h
    simp only [List.foldl_cons] at h ⊢
    have h2 := ih (alignStep name acc tc) h
    rw [h2] at h ⊢
    by_cases hc : acc.2 < calculateStringSimilarity name tc.category
    · simp [alignStep, hc] at h
    · simp only [alignStep, if_neg hc]

theorem align_none_score (tax : List TaxonomyCategory) (name : String)
    (h : (findMatchingTaxonomyCategory tax name).1 = none) :
    (findMatchingTaxonomyCategory tax name).2 = 0 := by
  unfold findMatchingTaxonomyCategory at h ⊢
  rw [align_foldl_none name tax _ h]

theorem align_foldl_mem (name : String) (l : List TaxonomyCategory) :
    ∀ (acc : Option TaxonomyCategory × ℚ) (tc : TaxonomyCategory),
      (l.foldl (alignStep name) acc).1 = some tc → tc ∈ l ∨ acc.1 = some tc := by
  induction l with
  | nil => intro acc tc h; exact Or.inr h
  | cons tc2 l ih =>
    intro acc tc h
    simp only [List.foldl_cons] at h
    rcases ih (alignStep name acc tc2) tc h with h2 | h2
    · exact Or.inl (List.mem_cons_of_mem _ h2)
    · by_cases hc : acc.2 < calculateStringSimilarity name tc2.category
      · left
        simp [alignStep, hc] at h2
        exact h2 ▸ List.mem_cons_self tc2 l
      · right
        simpa [alignStep, hc] using h2

theorem align_mem (tax : List TaxonomyCategory) (name : String) (tc : TaxonomyCategory)
    (h : (findMatchingTaxonomyCategory tax name).1 = some tc) : tc ∈ tax := by
  rcases align_foldl_mem name tax (none, 0) tc h with h2 | h2
  · exact h2
  · simp at h2

theorem classifySkill_count (us : List (String × String)) (b : SkillBuckets) (sk : Skill) :
    (classifySkill us b sk).gaps.length + (classifySkill us b sk).present.length +
        (classifySkill us b sk).needs_improvement.length =
      b.gaps.length + b.present.length + b.needs_improvement.length + 1 := by
  unfold classifySkill
  cases hf : findUserSkill sk.name us with
  | none => simp; omega
  | some p =>
    obtain ⟨n, level⟩ := p
    by_cases h1 : level = "beginner"
    · simp [h1]; omega
    · by_cases h2 : level = "intermediate"
      · simp [h1, h2]; omega
      · simp [h1, h2]; omega

theorem foldl_classify_count (us : List (String × String)) (skills : List Skill) :
    ∀ b : SkillBuckets,
      (skills.foldl (classifySkill us) b).gaps.length +
          (skills.foldl (classifySkill us) b).present.length +
          (skills.foldl (classifySkill us) b).needs_improvement.length =
        b.gaps.length + b.present.length + b.needs_improvement.length + skills.length := by
  induction skills with
  | nil => intro b; simp
  | cons sk skills ih =>
    intro b
    simp only [List.foldl_cons, List.length_cons]
    rw [ih (classifySkill us b sk), classifySkill_count]
    omega

theorem mem_analyzeCategory (tax : List TaxonomyCategory) (us : List (String × String))
    (c : CategoryMatch) (a : CategoryAnalysis) (ha : a ∈ analyzeCategory tax us c) :
    ∃ tc, tc ∈ tax ∧ (findMatchingTaxonomyCategory tax c.category).1 = some tc ∧
      a.matched_taxonomy_category = tc.category ∧
      a.skills = tc.skills.foldl (classifySkill us) ⟨[], [], []⟩ := by
  unfold analyzeCategory at ha
  by_cases hlt : (findMatchingTaxonomyCategory tax c.category).2 < mkRat 7 10
  · simp [hlt] at ha
  · rw [if_neg hlt] at ha
    cases hm : (findMatchingTaxonomyCategory tax c.category).1 with
    | none => rw [hm] at ha; simp at ha
    | some tc =>
      rw [hm] at ha
      simp at ha
      refine ⟨tc, align_mem tax c.category tc hm, ?_, by rw [ha], by rw [ha]⟩
      first
      | exact hm
      | rfl

theorem mem_analyze (tax : List TaxonomyCategory) (us : List (String × String))
    (cats : List CategoryMatch) (a : CategoryAnalysis)
    (ha : a ∈ analyzeSkillGapsForCategories tax cats us) :
    ∃ c ∈ cats, a ∈ analyzeCategory tax us c := by
  induction cats with
  | nil => simp [analyzeSkillGapsForCategories] at ha
  | cons c cs ih =>
    rw [analyze_cons] at ha
    rcases List.mem_append.mp ha with h | h
    · exact ⟨c, List.mem_cons_self c cs, h⟩
    · rcases ih h with ⟨c2, hc2, h2⟩
      exact ⟨c2, List.mem_cons_of_mem c hc2, h2⟩

/-- Claim C1: for every aligned category in the gap-analysis output, the three
lists gaps, present and needs_improvement together hold exactly as many
entries as the matched taxonomy category has skills, for every user skill map
and every sequence of category matches. -/
theorem partition_of_category_skills (tax : List TaxonomyCategory)
    (cats : List CategoryMatch) (us : List (String × String)) (a : CategoryAnalysis)
    (ha : a ∈ analyzeSkillGapsForCategories tax cats us) :
    ∃ tc, tc ∈ tax ∧ a.matched_taxonomy_category = tc.category ∧
      a.skills.gaps.length + a.skills.present.length + a.skills.needs_improvement.length =
        tc.skills.length := by
  rcases mem_analyze tax us cats a ha with ⟨c, _, hac⟩
  rcases mem_analyzeCategory tax us c a hac with ⟨tc, htc, _, hname, hsk⟩
  refine ⟨tc, htc, hname, ?_⟩
  rw [hsk, foldl_classify_count]
  simp

/-- Witness for C1: the partition law instantiated on a one-category taxonomy
with one matched skill and one gap. -/
theorem partition_of_category_skills_witness :
    ∃ tc, tc ∈ [TaxonomyCategory.mk "Web Development" [⟨"React", "r"⟩, ⟨"SQL", "s"⟩]] ∧
      ({ detected_category := "Web Development",
         matched_taxonomy_category := "Web Development",
         confidence := mkRat 8 10,
         similarity := 1,
         skills := ⟨[⟨"SQL", "s", "high"⟩], [],
           [⟨"React", "beginner", "r", "Focus on intermediate concepts and practice"⟩]⟩ } :
        CategoryAnalysis).matched_taxonomy_category = tc.category ∧
      1 + 0 + 1 = tc.skills.length :=
  partition_of_category_skills
    [TaxonomyCategory.mk "Web Development" [⟨"React", "r"⟩, ⟨"SQL", "s"⟩]]
    [⟨"Web Development", mkRat 8 10⟩] [("React", "beginner")] _ (by decide)

/-- Claim C5: the gap engine processes category matches independently in
order, and a detected category contributes exactly one output entry when the
best alignment similarity is at least 0.7 and none when it is strictly below
0.7: the skip boundary is the strict comparison with 0.7. -/
theorem alignment_skip_boundary :
    (∀ (tax : List TaxonomyCategory) (us : List (String × String)) (c : CategoryMatch)
        (cs : List CategoryMatch),
      analyzeSkillGapsForCategories tax (c :: cs) us =
        analyzeCategory tax us c ++ analyzeSkillGapsForCategories tax cs us) ∧
    (∀ (tax : List TaxonomyCategory) (us : List (String × String)) (c : CategoryMatch),
      (analyzeCategory tax us c).length =
        if (findMatchingTaxonomyCategory tax c.category).2 < 7/10 then 0 else 1) := by
  constructor
  · exact analyze_cons
  · intro tax us c
    rw [show (7 : ℚ)/10 = mkRat 7 10 from mkRat_seven_tenths.symm]
    by_cases hlt : (findMatchingTaxonomyCategory tax c.category).2 < mkRat 7 10
    · simp [analyzeCategory, hlt]
    · rw [if_neg hlt]
      unfold analyzeCategory
      rw [if_neg hlt]
      cases hm : (findMatchingTaxonomyCategory tax c.category).1 with
      | none =>
        exact absurd (align_none_score tax c.category hm ▸ hlt) (by simp; decide)
      | some tc => simp

/-- Counterexample to C4 as stated: the recommendation strings the code
attaches are capitalized (and, for the top tier, hyphenated) differently from
the strings the claim quotes. -/
theorem level_classification_counterexample :
    (classifySkill [("SQL", "beginner")] ⟨[], [], []⟩ ⟨"SQL", "d"⟩).needs_improvement =
      [⟨"SQL", "beginner", "d", "Focus on intermediate concepts and practice"⟩] ∧
    "Focus on intermediate concepts and practice" ≠
      "focus on intermediate concepts and practice" ∧
    (classifySkill [("SQL", "intermediate")] ⟨[], [], []⟩ ⟨"SQL", "d"⟩).present =
      [⟨"SQL", "intermediate", "d", "Consider advancing to expert level"⟩] ∧
    "Consider advancing to expert level" ≠ "consider advancing to expert level" ∧
    (classifySkill [("SQL", "expert")] ⟨[], [], []⟩ ⟨"SQL", "d"⟩).present =
      [⟨"SQL", "expert", "d", "Strong skill - can mentor others"⟩] ∧
    "Strong skill - can mentor others" ≠ "strong skill — can mentor others" := by
  refine ⟨by decide, by decide, by decide, by decide, by decide, by decide⟩

/-- Claim C4 (amended): for every resolved skill the engine classifies by the
user level: exactly "beginner" goes to needs_improvement with recommendation
"Focus on intermediate concepts and practice", exactly "intermediate" goes to
present with "Consider advancing to expert level", and any other level value
(including "expert" and any unrecognized string) goes to present with "Strong
skill - can mentor others". -/
theorem level_classification_exact (us : List (String × String)) (b : SkillBuckets)
    (sk : Skill) (n level : String) (h : findUserSkill sk.name us = some (n, level)) :
    classifySkill us b sk =
      if level = "beginner" then
        { b with needs_improvement := b.needs_improvement ++
            [⟨sk.name, level, sk.description, "Focus on intermediate concepts and practice"⟩] }
      else if level = "intermediate" then
        { b with present := b.present ++
            [⟨sk.name, level, sk.description, "Consider advancing to expert level"⟩] }
      else
        { b with present := b.present ++
            [⟨sk.name, level, sk.description, "Strong skill - can mentor others"⟩] } := by
  unfold classifySkill
  rw [h]

/-- Witness for C4: an unrecognized-level value filed as a strong present
skill. -/
theorem level_classification_exact_witness :
    classifySkill [("SQL", "guru")] ⟨[], [], []⟩ ⟨"SQL", "d"⟩ =
      ⟨[], [⟨"SQL", "guru", "d", "Strong skill - can mentor others"⟩], []⟩ := by
  have h :=
    level_classification_exact [("SQL", "guru")] ⟨[], [], []⟩ ⟨"SQL", "d"⟩ "SQL" "guru"
      (by decide)
  simpa using h

/-- Counterexample to C2 as stated: when the embedding stage fails with the
message "embedding provider down", the analyze operation fails with a wrapped
message, not with the provider error bubbled up unmodified. -/
theorem stage_error_unmodified_counterexample :
    analyzeSkillGapsE [] "Alice" (.ok (some ⟨some [], some "goal"⟩))
        (.error "embedding provider down") (fun _ => .ok []) (.ok "sum") =
      .error "Failed to analyze skill gaps: embedding provider down" ∧
    (Except.error "Failed to analyze skill gaps: embedding provider down" :
        Except String (Option AnalyzeResponse)) ≠
      .error "embedding provider down" := by
  constructor
  · rfl
  · intro hcontra
    exact absurd (Except.error.inj hcontra) (by decide)

/-- Claim C2 (amended): a failure of the embedding call or of the vector-index
query makes the whole analyze operation fail with no fallback result: the
category matcher rethrows the stage error unmodified, and the top level
rethrows it with its message prefixed by "Failed to analyze skill gaps: ";
the failing stage is identified only by the original message. -/
theorem stage_error_propagation (taxonomy : List TaxonomyCategory) (name : String)
    (profile : UserProfile) (embedResult : Except String (List ℚ))
    (searchResult : List ℚ → Except String (List SearchResult))
    (summaryResult : Except String String) (e : String) :
    (findTaxonomyCategoriesE embedResult searchResult = .error e →
      analyzeSkillGapsE taxonomy name (.ok (some profile)) embedResult searchResult
          summaryResult =
        .error ("Failed to analyze skill gaps: " ++ e)) ∧
    (embedResult = .error e →
      findTaxonomyCategoriesE embedResult searchResult = .error e) ∧
    (∀ v, embedResult = .ok v → searchResult v = .error e →
      findTaxonomyCategoriesE embedResult searchResult = .error e) := by
  refine ⟨fun h => ?_, fun h => ?_, fun v hv hs => ?_⟩
  · simp only [analyzeSkillGapsE, h]
  · simp [findTaxonomyCategoriesE, h]
  · simp [findTaxonomyCategoriesE, hv, hs]

/-- Witness for C2: the wrapped failure at a concrete embedding error. -/
theorem stage_error_propagation_witness :
    analyzeSkillGapsE [] "Alice" (.ok (some ⟨some [], some "g"⟩)) (.error "boom")
        (fun _ => .ok []) (.ok "sum") =
      .error ("Failed to analyze skill gaps: " ++ "boom") :=
  (stage_error_propagation [] "Alice" ⟨some [], some "g"⟩ (.error "boom")
      (fun _ => .ok []) (.ok "sum") "boom").1 rfl

theorem fuzzyScore_eq_claim (a b : String) :
    fuzzyScore a b = claimHeuristicScore a b := by
  unfold fuzzyScore claimHeuristicScore substringScore
  by_cases hsyn : areSkillsSimilar a b = true
  · rw [if_pos hsyn, if_pos hsyn]
  · rw [if_neg hsyn, if_neg hsyn]
    by_cases h2 : a.toList <:+: b.toList ∨ b.toList <:+: a.toList
    · by_cases h3 : 2 ≤ min a.toList.length b.toList.length ∧
          (3 : ℚ)/10 ≤ (min a.toList.length b.toList.length : ℚ) /
            (max a.toList.length b.toList.length : ℚ)
      · rw [if_pos h2, if_pos h3, if_pos (show qualifiesSubstring a b from ⟨h2, h3⟩)]
      · rw [if_pos h2, if_neg h3,
          if_neg (show ¬ qualifiesSubstring a b from fun hc => h3 hc.2)]
    · rw [if_neg h2, if_neg (show ¬ qualifiesSubstring a b from fun hc => h2 hc.1)]

theorem findUserSkillLoop_eq_find (q : String) (us : List (String × String)) :
    findUserSkillLoop q us =
      us.find? (fun p =>
        decide (mkRat 7 10 ≤ claimHeuristicScore q (lowerStr p.1))) := by
  induction us with
  | nil => rfl
  | cons p rest ih =>
    obtain ⟨userSkill, level⟩ := p
    by_cases hs : mkRat 7 10 ≤ claimHeuristicScore q (lowerStr userSkill)
    · simp [findUserSkillLoop, fuzzyScore_eq_claim, hs, List.find?]
    · simp [findUserSkillLoop, fuzzyScore_eq_claim, hs, List.find?, ih]

theorem findUserSkill_of_no_direct (s : String) (us : List (String × String))
    (h : truthyLookup (stripPunct s) us = none) :
    findUserSkill s us = findUserSkillLoop (lowerStr (stripPunct s)) us := by
  simp only [findUserSkill]
  rw [h]

/-- Claim C6: when the resolver falls through to fuzzy matching it returns the
first user skill in insertion order whose heuristic score reaches 0.7, where a
qualifying substring relation scores 0.8 and a synonym-table hit scores 0.9
overriding it: first above threshold wins, not the highest-scoring
candidate. -/
theorem resolver_first_above_threshold (skillName : String)
    (us : List (String × String))
    (h : truthyLookup (stripPunct skillName) us = none) :
    findUserSkill skillName us =
      us.find? (fun p =>
        decide (mkRat 7 10 ≤
          claimHeuristicScore (lowerStr (stripPunct skillName)) (lowerStr p.1))) := by
  rw [findUserSkill_of_no_direct skillName us h, findUserSkillLoop_eq_find]

/-- Witness for C6: the synonym pair JavaScript and JS resolved through the
fuzzy loop. -/
theorem resolver_first_above_threshold_witness :
    findUserSkill "JavaScript" [("JS", "beginner"), ("Python", "expert")] =
      List.find? (fun p =>
        decide (mkRat 7 10 ≤
          claimHeuristicScore (lowerStr (stripPunct "JavaScript")) (lowerStr p.1)))
        [("JS", "beginner"), ("Python", "expert")] :=
  resolver_first_above_threshold "JavaScript" [("JS", "beginner"), ("Python", "expert")]
    (by decide)

theorem findUserSkill_nil (s : String) : findUserSkill s [] = none := rfl

theorem classify_gap_step (us : List (String × String)) (b : SkillBuckets) (sk : Skill)
    (h : findUserSkill sk.name us = none) :
    classifySkill us b sk =
      { b with gaps := b.gaps ++ [⟨sk.name, sk.description, "high"⟩] } := by
  unfold classifySkill
  rw [h]

theorem foldl_classify_empty (skills : List Skill) :
    ∀ b : SkillBuckets,
      skills.foldl (classifySkill []) b =
        { b with gaps := b.gaps ++
            skills.map (fun s => ⟨s.name, s.description, "high"⟩) } := by
  induction skills with
  | nil => intro b; simp
  | cons sk skills ih =>
    intro b
    simp only [List.foldl_cons, List.map_cons]
    rw [classify_gap_step [] b sk (findUserSkill_nil sk.name), ih]
    simp

/-- Claim C7: a taxonomy skill with no direct key match, no qualifying
substring match and no synonym-table match resolves to null; the engine then
files it under gaps with priority high; with an empty user skill map every
skill of every aligned category lands in gaps with priority high while
present and needs_improvement stay empty. -/
theorem resolver_null_gives_gaps :
    (∀ (skillName : String) (us : List (String × String)),
      truthyLookup (stripPunct skillName) us = none →
      (∀ p ∈ us,
        areSkillsSimilar (lowerStr (stripPunct skillName)) (lowerStr p.1) = false ∧
        ¬ qualifiesSubstring (lowerStr (stripPunct skillName)) (lowerStr p.1)) →
      findUserSkill skillName us = none) ∧
    (∀ (us : List (String × String)) (b : SkillBuckets) (sk : Skill),
      findUserSkill sk.name us = none →
      classifySkill us b sk =
        { b with gaps := b.gaps ++ [⟨sk.name, sk.description, "high"⟩] }) ∧
    (∀ (tax : List TaxonomyCategory) (cats : List CategoryMatch) (a : CategoryAnalysis),
      a ∈ analyzeSkillGapsForCategories tax cats [] →
      ∃ tc, tc ∈ tax ∧ a.matched_taxonomy_category = tc.category ∧
        a.skills.gaps = tc.skills.map (fun s => ⟨s.name, s.description, "high"⟩) ∧
        (∀ g ∈ a.skills.gaps, g.priority = "high") ∧
        a.skills.present = [] ∧ a.skills.needs_improvement = []) := by
  refine ⟨fun skillName us h1 h2 => ?_, classify_gap_step, fun tax cats a hmem => ?_⟩
  · rw [findUserSkill_of_no_direct skillName us h1, findUserSkillLoop_eq_find]
    apply List.find?_eq_none.mpr
    intro p hp
    rcases h2 p hp with ⟨hsyn, hqual⟩
    simp only [decide_eq_true_eq]
    unfold claimHeuristicScore
    rw [if_neg (by simp [hsyn]), if_neg hqual]
    decide
  · rcases mem_analyze tax [] cats a hmem with ⟨c, _, hac⟩
    rcases mem_analyzeCategory tax [] c a hac with ⟨tc, htc, _, hname, hsk⟩
    rw [foldl_classify_empty] at hsk
    refine ⟨tc, htc, hname, ?_, ?_, ?_, ?_⟩
    · rw [hsk]
      simp
    · intro g hg
      rw [hsk] at hg
      simp at hg
      rcases hg with ⟨s, _, hgs⟩
      rw [← hgs]
    · rw [hsk]
    · rw [hsk]

/-- Witness for C7: a skill absent from the table and the map resolves to
null. -/
theorem resolver_null_gives_gaps_witness :
    findUserSkill "Rust" [("Python", "expert")] = none :=
  resolver_null_gives_gaps.1 "Rust" [("Python", "expert")] (by decide) (by decide)

theorem lookupA_eq_none_iff {α : Type} (k : String) (m : List (String × α)) :
    lookupA k m = none ↔ ∀ p ∈ m, p.1 ≠ k := by
  induction m with
  | nil => simp [lookupA]
  | cons q rest ih =>
    obtain ⟨k2, v⟩ := q
    by_cases hq : k2 = k
    · simp [lookupA, hq]
    · simp [lookupA, hq, ih]

theorem lookupA_mem {α : Type} (k : String) (v : α) (m : List (String × α))
    (h : lookupA k m = some v) : (k, v) ∈ m := by
  induction m with
  | nil => simp [lookupA] at h
  | cons q rest ih =>
    obtain ⟨k2, v2⟩ := q
    by_cases hq : k2 = k
    · simp only [lookupA, if_pos hq] at h
      cases h
      subst hq
      exact List.mem_cons_self _ _
    · simp only [lookupA, if_neg hq] at h
      exact List.mem_cons_of_mem _ (ih h)

theorem lookupA_of_nodup {α : Type} (m : List (String × α))
    (hnd : (m.map Prod.fst).Nodup) (p : String × α) (hp : p ∈ m) :
    lookupA p.1 m = some p.2 := by
  induction m with
  | nil => simp at hp
  | cons q rest ih =>
    obtain ⟨k2, v2⟩ := q
    simp only [List.map_cons, List.nodup_cons] at hnd
    rcases List.mem_cons.mp hp with rfl | hp2
    · simp [lookupA]
    · have hne : k2 ≠ p.1 := by
        intro hcontra
        exact hnd.1 (hcontra ▸ List.mem_map.mpr ⟨p, hp2, rfl⟩)
      simp only [lookupA, if_neg hne]
      exact ih hnd.2 hp2

theorem setAssoc_map_fst (m : List (String × ℚ)) (k : String) (v : ℚ) :
    (setAssoc m k v).map Prod.fst = m.map Prod.fst := by
  induction m with
  | nil => rfl
  | cons q rest ih =>
    obtain ⟨k2, v2⟩ := q
    by_cases hq : k2 = k
    · simp only [setAssoc, List.map_cons] at ih ⊢
      simp [hq, ih]
    · simp only [setAssoc, List.map_cons] at ih ⊢
      simp [hq, ih]

theorem mem_setAssoc (m : List (String × ℚ)) (k : String) (v : ℚ) (p : String × ℚ)
    (hp : p ∈ setAssoc m k v) :
    (p = (k, v) ∧ ∃ q ∈ m, q.1 = k) ∨ (p ∈ m ∧ p.1 ≠ k) := by
  rcases List.mem_map.mp hp with ⟨q, hq, hqe⟩
  by_cases hqk : q.1 = k
  · left
    rw [if_pos hqk] at hqe
    exact ⟨hqe.symm, q, hq, hqk⟩
  · right
    rw [if_neg hqk] at hqe
    exact ⟨hqe ▸ hq, hqe ▸ hqk⟩

theorem exists_key_iff_mem_map (l : List (String × ℚ)) (c : String) :
    (∃ p ∈ l, p.1 = c) ↔ c ∈ l.map Prod.fst := by
  constructor
  · rintro ⟨p, hp, rfl⟩
    exact List.mem_map.mpr ⟨p, hp, rfl⟩
  · intro h
    rcases List.mem_map.mp h with ⟨p, hp, hpe⟩
    exact ⟨p, hp, hpe⟩

theorem key_mem_setAssoc (m : List (String × ℚ)) (k : String) (v : ℚ) (c : String) :
    (∃ p ∈ setAssoc m k v, p.1 = c) ↔ ∃ p ∈ m, p.1 = c := by
  rw [exists_key_iff_mem_map, exists_key_iff_mem_map, setAssoc_map_fst]

theorem groupStep_inv (m : List (String × ℚ)) (processed : List SearchResult)
    (r : SearchResult) (hInv : GroupInv m processed)
    (hall : ∀ r2 ∈ processed, r2.score ≠ 0) :
    GroupInv (groupStep m r) (processed ++ [r]) := by
  obtain ⟨hnd, hkeys, hmax⟩ := hInv
  cases hl : lookupA r.category m with
  | none =>
    have hni : ∀ p ∈ m, p.1 ≠ r.category := (lookupA_eq_none_iff _ _).mp hl
    have hstep : groupStep m r = m ++ [(r.category, r.score)] := by
      unfold groupStep
      rw [hl]
    rw [hstep]
    refine ⟨?_, ?_, ?_⟩
    · rw [List.map_append, List.nodup_append]
      refine ⟨hnd, by simp, ?_⟩
      intro x hx hx2
      simp at hx2
      rcases List.mem_map.mp hx with ⟨p, hp, rfl⟩
      exact hni p hp hx2
    · intro k
      constructor
      · rintro ⟨p, hp, rfl⟩
        rcases List.mem_append.mp hp with h | h
        · rcases (hkeys p.1).mp ⟨p, h, rfl⟩ with ⟨r2, hr2, hr2e⟩
          exact ⟨r2, List.mem_append_left _ hr2, hr2e⟩
        · simp at h
          exact ⟨r, List.mem_append_right _ (by simp), by rw [h]⟩
      · rintro ⟨r2, hr2, rfl⟩
        rcases List.mem_append.mp hr2 with h | h
        · rcases (hkeys r2.category).mpr ⟨r2, h, rfl⟩ with ⟨p, hp, hpe⟩
          exact ⟨p, List.mem_append_left _ hp, hpe⟩
        · simp at h
          exact ⟨(r.category, r.score), List.mem_append_right _ (by simp), by rw [h]⟩
    · intro p hp
      rcases List.mem_append.mp hp with hpm | hpx
      · have hO := hmax p hpm
        refine ⟨?_, ?_⟩
        · rcases hO.1 with ⟨r2, hr2, hr2e⟩
          exact ⟨r2, List.mem_append_left _ hr2, hr2e⟩
        · intro r2 hr2 hr2c
          rcases List.mem_append.mp hr2 with h | h
          · exact hO.2 r2 h hr2c
          · simp at h
            exact absurd (h ▸ hr2c : r.category = p.1) (Ne.symm (hni p hpm))
      · simp at hpx
        subst hpx
        refine ⟨⟨r, List.mem_append_right _ (by simp), by simp⟩, ?_⟩
        intro r2 hr2 hr2c
        rcases List.mem_append.mp hr2 with h | h
        · exfalso
          rcases (hkeys r.category).mpr ⟨r2, h, hr2c⟩ with ⟨p2, hp2, hp2e⟩
          exact hni p2 hp2 hp2e
        · simp at h
          rw [h]
  | some s =>
    have hsmem : (r.category, s) ∈ m := lookupA_mem _ _ _ hl
    have hs0 : ¬ s = 0 := by
      rcases (hmax _ hsmem).1 with ⟨r2, hr2, hr2e⟩
      have h0 := hall r2 hr2
      rw [hr2e.2] at h0
      exact h0
    by_cases hlt : s < r.score
    · have hstep : groupStep m r = setAssoc m r.category r.score := by
        unfold groupStep
        rw [hl]
        exact if_pos (Or.inr hlt)
      rw [hstep]
      refine ⟨?_, ?_, ?_⟩
      · rw [setAssoc_map_fst]
        exact hnd
      · intro k
        rw [key_mem_setAssoc]
        constructor
        · intro hk
          rcases (hkeys k).mp hk with ⟨r2, hr2, hr2e⟩
          exact ⟨r2, List.mem_append_left _ hr2, hr2e⟩
        · rintro ⟨r2, hr2, rfl⟩
          rcases List.mem_append.mp hr2 with h | h
          · exact (hkeys r2.category).mpr ⟨r2, h, rfl⟩
          · simp at h
            rw [h]
            exact ⟨(r.category, s), hsmem, rfl⟩
      · intro p hp
        rcases mem_setAssoc m r.category r.score p hp with ⟨hpe, q, hq, hqk⟩ | ⟨hpm, hpk⟩
        · subst hpe
          refine ⟨⟨r, List.mem_append_right _ (by simp), by simp⟩, ?_⟩
          intro r2 hr2 hr2c
          rcases List.mem_append.mp hr2 with h | h
          · have hle := (hmax _ hsmem).2 r2 h hr2c
            exact le_trans hle (le_of_lt hlt)
          · simp at h
            rw [h]
        · have hO := hmax p hpm
          refine ⟨?_, ?_⟩
          · rcases hO.1 with ⟨r2, hr2, hr2e⟩
            exact ⟨r2, List.mem_append_left _ hr2, hr2e⟩
          · intro r2 hr2 hr2c
            rcases List.mem_append.mp hr2 with h | h
            · exact hO.2 r2 h hr2c
            · simp at h
              exact absurd (h ▸ hr2c : r.category = p.1) (Ne.symm hpk)
    · have hstep : groupStep m r = m := by
        unfold groupStep
        rw [hl]
        exact if_neg (fun hc => Or.elim hc hs0 hlt)
      rw [hstep]
      refine ⟨hnd, ?_, ?_⟩
      · intro k
        constructor
        · intro hk
          rcases (hkeys k).mp hk with ⟨r2, hr2, hr2e⟩
          exact ⟨r2, List.mem_append_left _ hr2, hr2e⟩
        · rintro ⟨r2, hr2, rfl⟩
          rcases List.mem_append.mp hr2 with h | h
          · exact (hkeys r2.category).mpr ⟨r2, h, rfl⟩
          · simp at h
            rw [h]
            exact ⟨(r.category, s), hsmem, rfl⟩
      · intro p hp
        have hO := hmax p hp
        refine ⟨?_, ?_⟩
        · rcases hO.1 with ⟨r2, hr2, hr2e⟩
          exact ⟨r2, List.mem_append_left _ hr2, hr2e⟩
        · intro r2 hr2 hr2c
          rcases List.mem_append.mp hr2 with h | h
          · exact hO.2 r2 h hr2c
          · simp at h
            subst h
            have hlk := lookupA_of_nodup m hnd p hp
            rw [← hr2c, hl] at hlk
            have hps : p.2 = s := (Option.some.inj hlk).symm
            rw [hps]
            exact le_of_not_lt hlt

theorem groupFold_inv (results : List SearchResult) :
    ∀ (processed : List SearchResult) (m : List (String × ℚ)),
      GroupInv m processed →
      (∀ r ∈ results, r.score ≠ 0) →
      (∀ r ∈ processed, r.score ≠ 0) →
      GroupInv (results.foldl groupStep m) (processed ++ results) := by
  induction results with
  | nil =>
    intro processed m hInv _ _
    simpa using hInv
  | cons r rest ih =>
    intro processed m hInv hres hproc
    simp only [List.foldl_cons]
    have h1 := groupStep_inv m processed r hInv hproc
    have h2 := ih (processed ++ [r]) (groupStep m r) h1
      (fun r2 hr2 => hres r2 (List.mem_cons_of_mem r hr2))
      (fun r2 hr2 => by
        rcases List.mem_append.mp hr2 with h | h
        · exact hproc r2 h
        · simp at h
          rw [h]
          exact hres r (List.mem_cons_self r rest))
    simpa using h2

theorem group_inv (results : List SearchResult)
    (h : ∀ r ∈ results, r.score ≠ 0) :
    GroupInv (groupCategoryScores results) results := by
  have h0 : GroupInv [] [] := ⟨by simp, by simp, by simp⟩
  have := groupFold_inv results [] [] h0 h (by simp)
  simpa [groupCategoryScores] using this

/-- Claim C3: for every result list the vector index can return to the
category matcher (all scores clear a positive score threshold, 0.45 in the
service path and 0.4 in the standalone path, so every score is nonzero), the
matcher returns exactly one entry per distinct category name occurring in the
results, with confidence equal to the maximum score among results sharing
that category name; an empty result list yields an empty sequence rather than
an error. -/
theorem category_grouping (results : List SearchResult)
    (hth : ∀ r ∈ results, r.score ≠ 0) :
    (results = [] → findTaxonomyCategoriesPure results = []) ∧
    ((findTaxonomyCategoriesPure results).map CategoryMatch.category).Nodup ∧
    (∀ c, (∃ e ∈ findTaxonomyCategoriesPure results, e.category = c) ↔
      ∃ r ∈ results, r.category = c) ∧
    (∀ e ∈ findTaxonomyCategoriesPure results,
      (∃ r ∈ results, r.category = e.category ∧ r.score = e.confidence) ∧
      ∀ r ∈ results, r.category = e.category → r.score ≤ e.confidence) := by
  cases results with
  | nil =>
    exact ⟨fun _ => rfl, by simp [findTaxonomyCategoriesPure],
      by simp [findTaxonomyCategoriesPure], by simp [findTaxonomyCategoriesPure]⟩
  | cons r0 rest =>
    obtain ⟨hnd, hkeys, hmax⟩ := group_inv (r0 :: rest) hth
    have hpure : findTaxonomyCategoriesPure (r0 :: rest) =
        (groupCategoryScores (r0 :: rest)).map
          (fun p => { category := p.1, confidence := p.2 }) := by
      simp [findTaxonomyCategoriesPure]
    refine ⟨fun hcontra => by simp at hcontra, ?_, ?_, ?_⟩
    · rw [hpure, List.map_map]
      exact hnd
    · intro c
      rw [hpure]
      constructor
      · rintro ⟨e, he, rfl⟩
        rcases List.mem_map.mp he with ⟨p, hp, rfl⟩
        exact (hkeys p.1).mp ⟨p, hp, rfl⟩
      · intro hex
        rcases (hkeys c).mpr hex with ⟨p, hp, hpc⟩
        exact ⟨{ category := p.1, confidence := p.2 }, List.mem_map.mpr ⟨p, hp, rfl⟩, hpc⟩
    · intro e he
      rw [hpure] at he
      rcases List.mem_map.mp he with ⟨p, hp, rfl⟩
      exact hmax p hp

/-- Witness for C3: three neighbors over two categories, all with nonzero
scores as returned under either call site threshold. -/
theorem category_grouping_witness :
    ((findTaxonomyCategoriesPure
        [⟨"Web Development", mkRat 1 2⟩, ⟨"Web Development", mkRat 3 5⟩,
         ⟨"Databases", mkRat 11 20⟩]).map CategoryMatch.category).Nodup :=
  (category_grouping
    [⟨"Web Development", mkRat 1 2⟩, ⟨"Web Development", mkRat 3 5⟩,
     ⟨"Databases", mkRat 11 20⟩] (by decide)).2.1

end SkillMap
